import Mathlib

/-!
Verification of the capacity-accounting and pool-eligibility core of
sapcc/openstack-exporter against its natural-language specification.

The Python sources are shallowly embedded:
* Python floats are modelled as rationals (`ℚ`);
* `int(x)` is truncation toward zero (`pyint`);
* a division that can raise `ZeroDivisionError` is modelled by `pydiv`
  returning `Option ℚ`;
* heterogeneous capability dictionaries are association lists over `Val`;
* `str.split(sep)` for a one-character separator is `pysplit`, defined on
  the character list of the string;
* code that can raise `KeyError`/`IndexError` returns `Except PyErr`.
-/

namespace Cinder

/-- A value stored in a capabilities or extra-specs dictionary. -/
inductive Val where
  | str (s : String)
  | num (q : ℚ)
  | bool (b : Bool)
  | dict (m : List (String × String))
  deriving DecidableEq

/-- Dictionary lookup on an association list: the first binding of the key. -/
def alookup {α β : Type} [DecidableEq α] : List (α × β) → α → Option β
  | [], _ => none
  | kv :: rest, a => if kv.1 = a then some kv.2 else alookup rest a

/-- Python truthiness of a dictionary value. -/
def pyTruthy : Val → Bool
  | Val.str s => decide (s ≠ "")
  | Val.num q => decide (q ≠ 0)
  | Val.bool b => b
  | Val.dict m => decide (m ≠ [])

/-- Python `int()` applied to a float: truncation toward zero. -/
def pyint (q : ℚ) : ℤ :=
  if 0 ≤ q then ⌊q⌋ else ⌈q⌉

/-- Python division; a zero denominator raises `ZeroDivisionError`, modelled
as `none`. -/
def pydiv (a b : ℚ) : Option ℚ :=
  if b = 0 then none else some (a / b)

/-- Splitting a character list at every occurrence of the separator, the
semantics of Python `str.split(sep)` for a one-character separator. -/
def splitOnChar (c : Char) : List Char → List (List Char)
  | [] => [[]]
  | x :: xs =>
    match splitOnChar c xs with
    | [] => [[]]
    | r :: rs => if x = c then [] :: r :: rs else (x :: r) :: rs

/-- Python `s.split(c)` for a one-character separator `c`. -/
def pysplit (s : String) (c : Char) : List String :=
  (splitOnChar c s.toList).map (fun cs => String.mk cs)

/-- The dictionary returned by `calculate_capacity_factors`
(`src/openstack_exporter/utils/cinder.py`, lines 137-152).  Numeric values are
rationals; the fields that Python builds with `int(...)` or `math.floor(...)`
hold the cast of the truncated integer. -/
structure CapacityFactors where
  total_capacity : ℚ
  free_capacity : ℚ
  reserved_capacity : ℚ
  total_reserved_available_capacity : ℚ
  max_over_subscription_ratio : Option ℚ
  total_available_capacity : ℚ
  provisioned_capacity : ℚ
  calculated_free_capacity : ℚ
  virtual_free_capacity : ℚ
  free_percent : ℚ
  provisioned_ratio : ℚ
  provisioned_type : String
  deriving DecidableEq

/-- Shallow embedding of `calculate_capacity_factors` from
`src/openstack_exporter/utils/cinder.py` (lines 66-152); the copy in
`src/openstack_exporter/collectors/cinderbackend.py` (lines 128-215) is the
same computation.  The two divisions guarded by `if total_available_capacity:`
are modelled with `pydiv`, so a `ZeroDivisionError` would surface as `none`;
the `max_over_subscription_ratio` variable, reassigned to `None` on the thick
branch, is carried as an `Option`. -/
def calculate_capacity_factors (total_capacity free_capacity provisioned_capacity : ℚ)
    (thin_provisioning_support : Bool) ( max_over_subscription_ratio reserved_percentage : ℚ)
    (thin : Bool) : Option CapacityFactors :=
  let total : ℚ := total_capacity
  let reserved : ℚ := reserved_percentage / 100
  let reserved_capacity : ℤ := ⌊total * reserved⌋
  let total_reserved_available : ℚ := total - (reserved_capacity : ℚ)
  let branch : ℚ × ℚ × ℚ × Option ℚ × String :=
    if thin && thin_provisioning_support then
      let total_available_capacity := total_reserved_available * max_over_subscription_ratio
      let calculated_free := total_available_capacity - provisioned_capacity
      let virtual_free := calculated_free
      (total_available_capacity, calculated_free, virtual_free,
        some max_over_subscription_ratio, "thin")
    else
      let total_available_capacity := total_reserved_available
      let calculated_free := total_available_capacity - provisioned_capacity
      let virtual_free :=
        if free_capacity < calculated_free then free_capacity else calculated_free
      (total_available_capacity, calculated_free, virtual_free, none, "thick")
  match branch with
  | (total_available_capacity, calculated_free, virtual_free, mosr_var, provisioned_type) =>
    let ratios : Option (ℚ × ℚ) :=
      if total_available_capacity ≠ 0 then
        match pydiv provisioned_capacity total_available_capacity,
            pydiv virtual_free total_available_capacity with
        | some pr, some fq => some (pr, fq * 100)
        | _, _ => none
      else some (0, 0)
    match ratios with
    | none => none
    | some (pr, fp) =>
      some
        { total_capacity := total
          free_capacity := free_capacity
          reserved_capacity := (reserved_capacity : ℚ)
          total_reserved_available_capacity := (pyint total_reserved_available : ℚ)
          max_over_subscription_ratio :=
            if provisioned_type = "thin" then mosr_var else none
          total_available_capacity := (pyint total_available_capacity : ℚ)
          provisioned_capacity := provisioned_capacity
          calculated_free_capacity := (pyint calculated_free : ℚ)
          virtual_free_capacity := (pyint virtual_free : ℚ)
          free_percent := fp
          provisioned_ratio := pr
          provisioned_type := provisioned_type }

/-- The raw (pre-truncation) `total_available_capacity` computed by steps 1-3
of `calculate_capacity_factors`, the quantity its division guard tests. -/
def total_available_raw (total_capacity : ℚ) (thin_provisioning_support : Bool)
    ( max_over_subscription_ratio reserved_percentage : ℚ) (thin : Bool) : ℚ :=
  let total : ℚ := total_capacity
  let reserved : ℚ := reserved_percentage / 100
  let reserved_capacity : ℤ := ⌊total * reserved⌋
  let total_reserved_available : ℚ := total - (reserved_capacity : ℚ)
  if thin && thin_provisioning_support then
    total_reserved_available * max_over_subscription_ratio
  else total_reserved_available

/-- Closed form of the record produced by `calculate_capacity_factors`,
related to it by `calc_factors_eq_record`. -/
def capacity_record (t f p : ℚ) (tps : Bool) (mosr rp : ℚ) (thin : Bool) : CapacityFactors :=
  let resCap : ℤ := ⌊t * (rp / 100)⌋
  let tra : ℚ := t - (resCap : ℚ)
  let tac : ℚ := if thin && tps then tra * mosr else tra
  let cf : ℚ := tac - p
  let vf : ℚ := if thin && tps then cf else if f < cf then f else cf
  { total_capacity := t
    free_capacity := f
    reserved_capacity := (resCap : ℚ)
    total_reserved_available_capacity := (pyint tra : ℚ)
    max_over_subscription_ratio := if thin && tps then some mosr else none
    total_available_capacity := (pyint tac : ℚ)
    provisioned_capacity := p
    calculated_free_capacity := (pyint cf : ℚ)
    virtual_free_capacity := (pyint vf : ℚ)
    free_percent := if tac = 0 then 0 else vf / tac * 100
    provisioned_ratio := if tac = 0 then 0 else p / tac
    provisioned_type := if thin && tps then "thin" else "thick" }

/-- A volume type: a name and its extra-specs dictionary. -/
structure VolumeType where
  name : String
  extra_specs : List (String × String)
  deriving DecidableEq

/-- The `can_overcommit` decision of `parse_pool_data`
(`src/openstack_exporter/utils/cinder.py`, lines 163-171), factored out of the
function body: start `False`; if a volume type matched and its
`provisioning:type` extra-spec is not the literal `'thick'` (a missing key
means thin), allow overcommit; `elif` the capabilities carry
`thin_provisioning_support`, use that value's truthiness. -/
def pool_can_overcommit (volume_type : Option VolumeType) (caps : List (String × Val)) : Bool :=
  let type_cond : Bool :=
    match volume_type with
    | some vt => decide (alookup vt.extra_specs "provisioning:type" ≠ some "thick")
    | none => false
  if type_cond then true
  else
    match alookup caps "thin_provisioning_support" with
    | some v => pyTruthy v
    | none => false

/-- A raw pool record from the scheduler: its `name` and `capabilities` bag. -/
structure PoolRecord where
  name : String
  capabilities : List (String × Val)
  deriving DecidableEq

/-- Python exceptions that pool parsing can raise. -/
inductive PyErr where
  | keyError (k : String)
  | indexError
  | zeroDivisionError
  deriving DecidableEq

/-- Read a capability used arithmetically, with the default of `caps.get`;
numeric capability fields hold numbers as reported by the scheduler. -/
def getNumD (caps : List (String × Val)) (key : String) (d : ℚ) : ℚ :=
  match alookup caps key with
  | some (Val.num q) => q
  | _ => d

/-- Read a capability used as a boolean with the default of `caps.get`,
applying Python truthiness to the stored value. -/
def getTruthyD (caps : List (String × Val)) (key : String) (d : Bool) : Bool :=
  match alookup caps key with
  | some v => pyTruthy v
  | none => d

/-- The `data` dictionary built by `parse_pool_data`
(`src/openstack_exporter/utils/cinder.py`, lines 155-219). -/
structure PoolData where
  backend : Val
  pool : String
  shard : Option Val
  can_overcommit : Bool
  total_capacity_gb : ℚ
  max_over_subscription_ratio : ℚ
  provisioned_capacity_gb : ℚ
  overcommit_ratio : ℚ
  available_capacity_gb : ℚ
  allocated_capacity_gb : ℚ
  free_capacity_gb : ℚ
  virtual_free_capacity_gb : ℚ
  percent_left : ℚ
  reserved_percentage : ℚ
  provisioning_type : String
  aggregate_id : Option Val
  driver_version : Val
  deriving DecidableEq

/-- Shallow embedding of `parse_pool_data`
(`src/openstack_exporter/utils/cinder.py`, lines 155-219).  The function has
no exception handling: a missing `volume_backend_name` or `driver_version`
capability raises `KeyError`, and a pool name without a `'#'` raises
`IndexError` at `pool['name'].split('#')[1]`; both surface here as
`Except.error`.  Failures are checked in the evaluation order of the Python
dict literal and trailing accesses. -/
def parse_pool_data (pool : PoolRecord) (volume_type : Option VolumeType) :
    Except PyErr PoolData :=
  let caps := pool.capabilities
  let shard_name := alookup caps "vcenter-shard"
  match alookup caps "volume_backend_name" with
  | none => Except.error (PyErr.keyError "volume_backend_name")
  | some backend_name =>
    match (pysplit pool.name '#')[1]? with
    | none => Except.error PyErr.indexError
    | some pool_part =>
      match alookup caps "driver_version" with
      | none => Except.error (PyErr.keyError "driver_version")
      | some driver_version =>
        let co := pool_can_overcommit volume_type caps
        let total_capacity_gb := getNumD caps "total_capacity_gb" 0
        let allocated_capacity_gb := getNumD caps "allocated_capacity_gb" 0
        let reserved_percentage := getNumD caps "reserved_percentage" 0
        let mosr := getNumD caps "max_over_subscription_ratio" 1
        let free_capacity_gb := getNumD caps "free_capacity_gb" 0
        match calculate_capacity_factors total_capacity_gb free_capacity_gb
            allocated_capacity_gb (getTruthyD caps "thin_provisioning_support" false)
            mosr reserved_percentage co with
        | none => Except.error PyErr.zeroDivisionError
        | some factors =>
          Except.ok
            { backend := backend_name
              pool := pool_part
              shard := shard_name
              can_overcommit := co
              total_capacity_gb := total_capacity_gb
              max_over_subscription_ratio := mosr
              provisioned_capacity_gb := getNumD caps "provisioned_capacity_gb" 0
              overcommit_ratio := CapacityFactors.provisioned_ratio factors
              available_capacity_gb := CapacityFactors.total_available_capacity factors
              allocated_capacity_gb := allocated_capacity_gb
              free_capacity_gb := free_capacity_gb
              virtual_free_capacity_gb := CapacityFactors.virtual_free_capacity factors
              percent_left := CapacityFactors.free_percent factors
              reserved_percentage := reserved_percentage
              provisioning_type := if co then "thin" else "thick"
              aggregate_id := alookup caps "aggregate_id"
              driver_version := driver_version }

/-- One poll cycle over a pool list, as the collector's `collect` loop drives
`parse_pool_data`: there is no `try`/`except`, so the first exception aborts
the remaining pools. -/
def parse_all (pools : List PoolRecord) (volume_type : Option VolumeType) :
    Except PyErr (List PoolData) :=
  match pools with
  | [] => Except.ok []
  | p :: rest => do
    let d ← parse_pool_data p volume_type
    let ds ← parse_all rest volume_type
    Except.ok (d :: ds)

/-- A malformed pool: its capabilities lack `volume_backend_name`. -/
def bad_pool : PoolRecord :=
  { name := "hostA@backendA#poolA"
    capabilities := [("driver_version", Val.str "1.0")] }

/-- A well-formed pool record. -/
def good_pool : PoolRecord :=
  { name := "hostB@backendB#poolB"
    capabilities :=
      [("volume_backend_name", Val.str "backendB"), ("driver_version", Val.str "1.0"),
        ("total_capacity_gb", Val.num 100), ("free_capacity_gb", Val.num 50)] }

/-- Shallow embedding of `extract_host`
(`src/openstack_exporter/utils/cinder.py`, lines 15-63): split the host string
on `'#'`; for level `'pool'` return the second piece when the split has
exactly two pieces, else `'_pool0'` when `default_pool_name` is set, else
`None`.  An unrecognized level falls off the end of the Python function and
returns `None`. -/
def extract_host (host level : String) (default_pool_name : Bool) : Option String :=
  if level = "host" then
    let hst := (pysplit host '#').headD ""
    some ((pysplit hst '@').headD "")
  else if level = "backend" then
    some ((pysplit host '#').headD "")
  else if level = "pool" then
    let lst := pysplit host '#'
    if lst.length = 2 then lst[1]?
    else if default_pool_name then some "_pool0"
    else none
  else none

/-- The `filter_properties` dictionary that `run_filters` builds around the
volume type. -/
structure FilterProperties where
  resource_type : VolumeType
  deriving DecidableEq

/-- A scheduler filter is anything with the pure
`backend_passes(pool, filter_properties)` capability
(`src/openstack_exporter/utils/filters/__init__.py`, lines 6-12). -/
def CinderFilter : Type :=
  PoolRecord → FilterProperties → Bool

/-- The loop of `CinderSchedulerFilter.run_filters`: test each filter in
order, returning `False` at the first failure. -/
def run_filters_loop (pool : PoolRecord) (props : FilterProperties) :
    List CinderFilter → Bool
  | [] => true
  | f :: rest =>
    if f pool props = false then false else run_filters_loop pool props rest

/-- Shallow embedding of `CinderSchedulerFilter.run_filters`
(`src/openstack_exporter/utils/filters/__init__.py`, lines 25-32). -/
def run_filters (filters : List CinderFilter) (pool : PoolRecord)
    (volume_type : VolumeType) : Bool :=
  run_filters_loop pool { resource_type := volume_type } filters

/-- A filter passing pools whose `volume_backend_name` capability equals the
volume type's name. -/
def filter_backend_name : CinderFilter :=
  fun p props =>
    decide (alookup p.capabilities "volume_backend_name"
      = some (Val.str props.resource_type.name))

/-- A filter passing pools with a nonempty name. -/
def filter_nonempty_name : CinderFilter :=
  fun p _ => decide (p.name ≠ "")

/-- Appending a pool to a named bucket, creating the bucket at the end when
absent — the `if v_type['name'] not in pool_list: pool_list[...] = []` plus
`append` steps of `filter_pools`. -/
def addToBucket : List (String × List PoolRecord) → String → PoolRecord →
    List (String × List PoolRecord)
  | [], name, pool => [(name, [pool])]
  | (k, ps) :: rest, name, pool =>
    if k = name then (k, ps ++ [pool]) :: rest
    else (k, ps) :: addToBucket rest name pool

/-- The pool list held under a bucket name (empty when the key is absent). -/
def bucketOf (buckets : List (String × List PoolRecord)) (k : String) :
    List PoolRecord :=
  (alookup buckets k).getD []

/-- The inner loop of `filter_pools` over the volume types for one pool,
carrying the `found` flag. -/
def classify_types (fs : List CinderFilter) (pool : PoolRecord) :
    List VolumeType → List (String × List PoolRecord) → Bool →
      List (String × List PoolRecord) × Bool
  | [], buckets, found => (buckets, found)
  | vt :: rest, buckets, found =>
    if run_filters fs pool vt then
      classify_types fs pool rest (addToBucket buckets vt.name pool) true
    else classify_types fs pool rest buckets found

/-- The body of `filter_pools` for one pool: try every volume type, and file
the pool under `'Unknown'` when none matched. -/
def classify_pool (fs : List CinderFilter) (volume_types : List VolumeType)
    (buckets : List (String × List PoolRecord)) (pool : PoolRecord) :
    List (String × List PoolRecord) :=
  match classify_types fs pool volume_types buckets false with
  | (buckets1, found) =>
    if found then buckets1 else addToBucket buckets1 "Unknown" pool

/-- Shallow embedding of `filter_pools`
(`src/openstack_exporter/utils/cinder.py`, lines 281-313), abstracted over the
filter chain (`CapabilitiesFilter` lives outside this repository's sources);
the bucket dictionary starts as `{'Unknown': []}`. -/
def filter_pools (fs : List CinderFilter) (volume_types : List VolumeType)
    (pools : List PoolRecord) : List (String × List PoolRecord) :=
  pools.foldl (classify_pool fs volume_types) [("Unknown", [])]

/-- The `seen_backends` table of `CinderBackendCollector.collect`
(`src/openstack_exporter/collectors/cinderbackend.py`, lines 428-488): shard
name → backend name → observed pool count, insertion-ordered like a Python
dict. -/
abbrev SeenMap := List (String × List (String × ℕ))

/-- The collector configuration fields that drive presence tracking. -/
structure CollectorConfig where
  expected_sharding_backends : List String
  expected_no_sharding_backends : List String
  allow_unexpected_backends : Bool
  shards : List String
  deriving DecidableEq

/-- The Python `dict([(key, 0) for key in backends])` seed table. -/
def default_counts (backends : List String) : List (String × ℕ) :=
  backends.map (fun b => (b, 0))

/-- The initial `seen_backends`: the `'None'` shard with the expected
no-sharding backends, then one entry per discovered shard seeded with the
expected sharding backends at count 0 (`collect`, lines 431-439). -/
def init_seen (cfg : CollectorConfig) : SeenMap :=
  ("None", default_counts cfg.expected_no_sharding_backends)
    :: cfg.shards.map (fun s => (s, default_counts cfg.expected_sharding_backends))

/-- The shard a pool reports under: its `vcenter-shard` capability, else the
`'None'` shard (`collect`, lines 445-447); shard values are strings as
reported by the scheduler. -/
def pool_shard (p : PoolRecord) : String :=
  match alookup p.capabilities "vcenter-shard" with
  | some (Val.str s) => s
  | _ => "None"

/-- The backend a pool reports for: `caps['volume_backend_name']`, a string
as reported by the scheduler (`collect`, line 444). -/
def pool_backend (p : PoolRecord) : String :=
  match alookup p.capabilities "volume_backend_name" with
  | some (Val.str s) => s
  | _ => ""

/-- The `seen_backends[shard_name][backend] += 1` update on a counts list. -/
def bump_backend (counts : List (String × ℕ)) (backend : String) :
    List (String × ℕ) :=
  counts.map (fun bc => if bc.1 = backend then (bc.1, bc.2 + 1) else bc)

/-- Apply `f` to the counts stored under `shard`. -/
def update_shard (seen : SeenMap) (shard : String)
    (f : List (String × ℕ) → List (String × ℕ)) : SeenMap :=
  seen.map (fun sc => if sc.1 = shard then (sc.1, f sc.2) else sc)

/-- Initialize the accounting for a shard first seen mid-cycle
(`collect`, lines 454-456). -/
def ensure_shard (cfg : CollectorConfig) (seen : SeenMap) (shard_name : String) :
    SeenMap :=
  if (alookup seen shard_name).isSome then seen
  else seen ++ [(shard_name, default_counts cfg.expected_sharding_backends)]

/-- One pool's effect on `seen_backends` (`collect`, lines 442-477): ensure
the shard has an entry, then increment the backend's count when expected,
insert it at 1 when unexpected backends are allowed, and otherwise only log a
warning, leaving the table unchanged. -/
def seen_step (cfg : CollectorConfig) (seen : SeenMap) (p : PoolRecord) : SeenMap :=
  let shard_name := pool_shard p
  let backend := pool_backend p
  let seen1 := ensure_shard cfg seen shard_name
  match alookup seen1 shard_name with
  | some counts =>
    if (alookup counts backend).isSome then
      update_shard seen1 shard_name (fun cs => bump_backend cs backend)
    else if cfg.allow_unexpected_backends then
      update_shard seen1 shard_name (fun cs => cs ++ [(backend, 1)])
    else seen1
  | none => seen1

/-- The `seen_backends` table after one poll cycle. -/
def collect_presence (cfg : CollectorConfig) (pools : List PoolRecord) : SeenMap :=
  pools.foldl (seen_step cfg) (init_seen cfg)

/-- The synthetic zero-capacity records emitted at the end of `collect`
(lines 480-488): one `(shard, backend)` pair per entry whose count is 0, in
table order. -/
def zero_records (seen : SeenMap) : List (String × String) :=
  seen.flatMap (fun sc =>
    (sc.2.filter (fun bc => bc.2 == 0)).map (fun bc => (sc.1, bc.1)))

/-- The tracked count for a `(shard, backend)` pair. -/
def seen_count (seen : SeenMap) (s b : String) : Option ℕ :=
  (alookup seen s).bind (fun counts => alookup counts b)

/-- Keys of an association list are pairwise distinct, as in a Python dict. -/
def NodupKeys {α β : Type} (l : List (α × β)) : Prop :=
  (l.map Prod.fst).Nodup

/-- Well-formedness of a seen-backends table: distinct shard keys, and
distinct backend keys within every shard. -/
def SeenWF (seen : SeenMap) : Prop :=
  NodupKeys seen ∧ ∀ sc ∈ seen, NodupKeys sc.2

/-- A collector configuration expecting `standard_hdd` and `vmware` in the
single shard `vc-a`. -/
def presence_cfg : CollectorConfig :=
  { expected_sharding_backends := ["standard_hdd", "vmware"]
    expected_no_sharding_backends := []
    allow_unexpected_backends := false
    shards := ["vc-a"] }

/-- One observed pool, reported by the `vmware` backend in shard `vc-a`. -/
def presence_pools : List PoolRecord :=
  [{ name := "host@vmware#pool1"
     capabilities :=
       [("volume_backend_name", Val.str "vmware"), ("vcenter-shard", Val.str "vc-a")] }]

/-- The per-group record built by `aggregate_pools`
(`src/openstack_exporter/utils/cinder.py`, lines 316-382); `free_percent` is
an `Option` because the Python dict only gains that key in the merge branch. -/
structure AggPool where
  name : Option String
  aggregate_id : Option Val
  allocated_capacity_gb : ℚ
  free_capacity_gb : ℚ
  total_capacity_gb : ℚ
  reserved_percentage : ℚ
  max_over_subscription_ratio : Option Val
  thin_provisioning_support : Option Val
  virtual_free_capacity_gb : ℚ
  netapp_fqdn : String
  free_percent : Option ℚ
  deriving DecidableEq

/-- Inner helper `calc_virtual_free` of `aggregate_pools` (lines 326-327). -/
def calc_virtual_free (available_capacity allocated_capacity : ℚ) : ℚ :=
  available_capacity - allocated_capacity

/-- Inner helper `calc_free_percent` of `aggregate_pools` (lines 329-332). -/
def calc_free_percent (virtual_free total_available_capacity : ℚ) : ℚ :=
  if total_available_capacity = 0 then 0
  else ((⌊virtual_free / total_available_capacity * 100⌋ : ℤ) : ℚ)

/-- Inner helper `calc_available_capacity` of `aggregate_pools`
(lines 334-337). -/
def calc_available_capacity (total_capacity reserved_percentage : ℚ) : ℚ :=
  let reserved : ℚ := reserved_percentage / 100
  let reserved_capacity : ℤ := ⌊total_capacity * reserved⌋
  total_capacity - (reserved_capacity : ℚ)

/-- The `netapp_fqdn` read from `caps['custom_attributes']`
(lines 367-370), `'N/A'` when absent. -/
def netapp_of (caps : List (String × Val)) : String :=
  match alookup caps "custom_attributes" with
  | some (Val.dict m) =>
    match alookup m "netapp_fqdn" with
    | some fqdn => fqdn
    | none => "N/A"
  | _ => "N/A"

/-- Replace the record stored under `k`. -/
def updateAgg (l : List (Option String × AggPool)) (k : Option String)
    (v : AggPool) : List (Option String × AggPool) :=
  l.map (fun kv => if kv.1 = k then (kv.1, v) else kv)

/-- One pool's effect on the aggregation state of `aggregate_pools`
(lines 340-380).  The second state component is the Python local
`virtual_free`: the merge branch's `+= virtual_free` reads whatever value a
previous loop iteration left in it (possibly for a different pool group); it
is never `none` there because the first aggregate pool always takes the
insertion branch.  Numeric capability fields are read with `getNumD`
defaults standing for values the function indexes directly. -/
def agg_step (st : List (Option String × AggPool) × Option ℚ)
    (pool : PoolRecord) : List (Option String × AggPool) × Option ℚ :=
  if (alookup pool.capabilities "aggregate_id").isSome then
    let caps := pool.capabilities
    let pool_name := extract_host pool.name "pool" false
    let available_cap := calc_available_capacity
      (getNumD caps "total_capacity_gb" 0) (getNumD caps "reserved_percentage" 0)
    match alookup st.1 pool_name with
    | none =>
      let virtual_free := calc_virtual_free available_cap
        (getNumD caps "allocated_capacity_gb" 0)
      (st.1 ++ [(pool_name,
        { name := pool_name
          aggregate_id := alookup caps "aggregate_id"
          allocated_capacity_gb := getNumD caps "allocated_capacity_gb" 0
          free_capacity_gb := getNumD caps "free_capacity_gb" 0
          total_capacity_gb := getNumD caps "total_capacity_gb" 0
          reserved_percentage := getNumD caps "reserved_percentage" 0
          max_over_subscription_ratio := alookup caps "max_over_subscription_ratio"
          thin_provisioning_support := alookup caps "thin_provisioning_support"
          virtual_free_capacity_gb := virtual_free
          netapp_fqdn := netapp_of caps
          free_percent := none })],
        some virtual_free)
    | some entry =>
      let allocated := entry.allocated_capacity_gb
        + getNumD caps "allocated_capacity_gb" 0
      let vfc := entry.virtual_free_capacity_gb + st.2.getD 0
      let virtual_free := calc_virtual_free available_cap allocated
      let fp := calc_free_percent virtual_free available_cap
      (updateAgg st.1 pool_name
        { entry with
          allocated_capacity_gb := allocated
          virtual_free_capacity_gb := vfc
          free_percent := some fp },
        some virtual_free)
  else st

/-- Shallow embedding of `aggregate_pools`
(`src/openstack_exporter/utils/cinder.py`, lines 316-382): fold over the
shard-keyed pool mapping, merging every aggregate-flagged pool into the group
keyed by `extract_host(name, 'pool')`. -/
def aggregate_pools (pools : List (String × List PoolRecord)) :
    List (Option String × AggPool) :=
  (pools.foldl (fun st shard_pools => shard_pools.2.foldl agg_step st)
    (([], none) : List (Option String × AggPool) × Option ℚ)).1

/-- Capabilities of an aggregate-flagged pool with the given allocation,
total capacity 100 and reserved percentage 0, as in the spec §8 example. -/
def agg_caps (alloc : ℚ) : List (String × Val) :=
  [("aggregate_id", Val.str "x"), ("allocated_capacity_gb", Val.num alloc),
    ("total_capacity_gb", Val.num 100), ("reserved_percentage", Val.num 0),
    ("free_capacity_gb", Val.num 90), ("max_over_subscription_ratio", Val.num 1),
    ("thin_provisioning_support", Val.bool true), ("custom_attributes", Val.dict [])]

/-- The spec §8 aggregator example, plus a third single-member group:
two shards report pool `p1` with allocations 10 and 15, and pool `p2` is
reported once with allocation 30. -/
def C2_pools : List (String × List PoolRecord) :=
  [("vc-a", [{ name := "hostA@backendA#p1", capabilities := agg_caps 10 }]),
    ("vc-b", [{ name := "hostB@backendB#p1", capabilities := agg_caps 15 },
      { name := "hostC@backendC#p2", capabilities := agg_caps 30 }])]

theorem splitOnChar_cons_eq (c x : Char) (xs r : List Char) (rs : List (List Char))
    (h : splitOnChar c xs = r :: rs) :
    splitOnChar c (x :: xs) = if x = c then [] :: r :: rs else (x :: r) :: rs := by
  simp only [splitOnChar]
  rw [h]

theorem splitOnChar_ne_nil (c : Char) (l : List Char) : splitOnChar c l ≠ [] := by
  induction l with
  | nil => simp [splitOnChar]
  | cons x xs ih =>
    rcases h : splitOnChar c xs with _ | ⟨r, rs⟩
    · exact absurd h ih
    · rw [splitOnChar_cons_eq c x xs r rs h]
      by_cases hx : x = c <;> simp [hx]

theorem splitOnChar_length (c : Char) (l : List Char) :
    (splitOnChar c l).length = l.count c + 1 := by
  induction l with
  | nil => simp [splitOnChar]
  | cons x xs ih =>
    rcases h : splitOnChar c xs with _ | ⟨r, rs⟩
    · exact absurd h (splitOnChar_ne_nil c xs)
    · rw [splitOnChar_cons_eq c x xs r rs h]
      rw [h] at ih
      simp only [List.length_cons] at ih
      by_cases hx : x = c
      · simp only [if_pos hx, List.length_cons, List.count_cons, hx,
          beq_self_eq_true, if_pos]
        omega
      · have hcx : ¬(c = x) := fun hc => hx hc.symm
        simp [hx, List.count_cons, hcx]
        omega

theorem splitOnChar_of_not_mem (c : Char) (l : List Char) (h : c ∉ l) :
    splitOnChar c l = [l] := by
  induction l with
  | nil => rfl
  | cons x xs ih =>
    simp only [List.mem_cons, not_or] at h
    have hxs := ih h.2
    rw [splitOnChar_cons_eq c x xs xs [] hxs]
    have hx : ¬(x = c) := fun hxc => h.1 hxc.symm
    simp [hx]

theorem splitOnChar_pair (c : Char) (l a b : List Char)
    (h : splitOnChar c l = [a, b]) : l = a ++ c :: b ∧ c ∉ a ∧ c ∉ b := by
  induction l generalizing a with
  | nil => simp [splitOnChar] at h
  | cons x xs ih =>
    rcases hs : splitOnChar c xs with _ | ⟨r, rs⟩
    · exact absurd hs (splitOnChar_ne_nil c xs)
    · rw [splitOnChar_cons_eq c x xs r rs hs] at h
      by_cases hx : x = c
      · subst hx
        rw [if_pos rfl] at h
        injection h with h1 h2
        injection h2 with h3 h4
        subst h1
        subst h3
        subst h4
        -- hs : a one-piece split, so the separator does not occur in xs
        have hnm : x ∉ xs := by
          intro hmem
          have hlen := splitOnChar_length x xs
          rw [hs] at hlen
          simp only [List.length_cons, List.length_nil] at hlen
          have hcnt : xs.count x ≠ 0 := by
            simpa [List.count_eq_zero] using hmem
          omega
        have hxs : xs = r := by
          have hone := splitOnChar_of_not_mem x xs hnm
          rw [hs] at hone
          injection hone with h5 _
          exact h5.symm
        refine ⟨by simp [hxs], by simp, ?_⟩
        rw [hxs] at hnm
        exact hnm
      · rw [if_neg hx] at h
        injection h with h1 h2
        have hpair : splitOnChar c xs = [r, b] := by rw [hs, h2]
        obtain ⟨hxs, hr, hb⟩ := ih r hpair
        subst h1
        refine ⟨by simp [hxs], ?_, hb⟩
        simp only [List.mem_cons, not_or]
        exact ⟨fun hc => hx hc.symm, hr⟩

theorem pyint_cast_le {q f : ℚ} (hq : q ≤ f) (hf : 0 ≤ f) : (pyint q : ℚ) ≤ f := by
  unfold pyint
  by_cases h : 0 ≤ q
  · rw [if_pos h]
    exact le_trans (Int.floor_le q) hq
  · rw [if_neg h]
    push_neg at h
    have hc : ⌈q⌉ ≤ (0 : ℤ) := Int.ceil_le.mpr (by exact_mod_cast le_of_lt h)
    calc ((⌈q⌉ : ℤ) : ℚ) ≤ (0 : ℚ) := by exact_mod_cast hc
    _ ≤ f := hf

theorem calc_factors_eq_record (t f p : ℚ) (tps : Bool) (mosr rp : ℚ) (thin : Bool) :
    calculate_capacity_factors t f p tps mosr rp thin
      = some (capacity_record t f p tps mosr rp thin) := by
  simp only [calculate_capacity_factors, capacity_record, pydiv]
  by_cases hb : (thin && tps) = true
  · by_cases htac : ((t : ℚ) - ((⌊t * (rp / 100)⌋ : ℤ) : ℚ)) * mosr = 0
    · simp [hb, htac]
    · simp [hb, htac]
  · by_cases htac : ((t : ℚ) - ((⌊t * (rp / 100)⌋ : ℤ) : ℚ)) = 0
    · simp [hb, htac]
    · simp [hb, htac]

/-- C1: for all inputs with totalCapacity, freeCapacity, provisionedCapacity
nonnegative, reservedPercentage in `[0, 100]` and maxOverSubscriptionRatio at
least 1, `calculate_capacity_factors` computes exactly the spec §4.1
algorithm: `reservedCapacity = floor(totalCapacity * reservedPercentage / 100)`;
on the thin path (`thin` and `thinProvisioningSupport`) the available capacity
is `(totalCapacity - reservedCapacity) * maxOverSubscriptionRatio`, virtual
free is that minus provisionedCapacity and the type is `"thin"`; otherwise the
available capacity is `totalCapacity - reservedCapacity`, virtual free is
`min(availableCapacity - provisionedCapacity, freeCapacity)` (hence at most
`freeCapacity`), the type is `"thick"` and the reported oversubscription ratio
is `none`.  Capacity-typed outputs carry the §4.1 `int()` truncation. -/
theorem C1_capacity_factors_spec (t f p : ℚ) (tps : Bool) (mosr rp : ℚ) (thin : Bool)
    (ht : 0 ≤ t) (hf : 0 ≤ f) (hp : 0 ≤ p) (hrp0 : 0 ≤ rp) (hrp1 : rp ≤ 100)
    (hm : 1 ≤ mosr) :
    ∃ r, calculate_capacity_factors t f p tps mosr rp thin = some r ∧
      CapacityFactors.reserved_capacity r = ((⌊t * rp / 100⌋ : ℤ) : ℚ) ∧
      (thin = true ∧ tps = true →
        CapacityFactors.total_available_capacity r
          = ((pyint ((t - ((⌊t * rp / 100⌋ : ℤ) : ℚ)) * mosr) : ℤ) : ℚ) ∧
        CapacityFactors.virtual_free_capacity r
          = ((pyint ((t - ((⌊t * rp / 100⌋ : ℤ) : ℚ)) * mosr - p) : ℤ) : ℚ) ∧
        CapacityFactors.provisioned_type r = "thin" ∧
        CapacityFactors.max_over_subscription_ratio r = some mosr) ∧
      (¬(thin = true ∧ tps = true) →
        CapacityFactors.total_available_capacity r
          = ((pyint (t - ((⌊t * rp / 100⌋ : ℤ) : ℚ)) : ℤ) : ℚ) ∧
        CapacityFactors.virtual_free_capacity r
          = ((pyint (min (t - ((⌊t * rp / 100⌋ : ℤ) : ℚ) - p) f) : ℤ) : ℚ) ∧
        CapacityFactors.virtual_free_capacity r ≤ f ∧
        CapacityFactors.provisioned_type r = "thick" ∧
        CapacityFactors.max_over_subscription_ratio r = none) := by
  have hfl : t * (rp / 100) = t * rp / 100 := by ring
  refine ⟨capacity_record t f p tps mosr rp thin,
    calc_factors_eq_record t f p tps mosr rp thin, ?_, ?_, ?_⟩
  · simp [capacity_record, hfl]
  · rintro ⟨hthin, htps⟩
    subst hthin
    subst htps
    simp [capacity_record, hfl]
  · intro hnb
    have hb : (thin && tps) = false := by
      rcases thin <;> rcases tps <;> simp_all
    have hmin : (if f < t - ((⌊t * rp / 100⌋ : ℤ) : ℚ) - p
        then f else t - ((⌊t * rp / 100⌋ : ℤ) : ℚ) - p)
        = min (t - ((⌊t * rp / 100⌋ : ℤ) : ℚ) - p) f := by
      rcases lt_or_le f (t - ((⌊t * rp / 100⌋ : ℤ) : ℚ) - p) with hlt | hle
      · rw [if_pos hlt, min_eq_right (le_of_lt hlt)]
      · rw [if_neg (not_lt.mpr hle), min_eq_left hle]
    refine ⟨?_, ?_, ?_, ?_, ?_⟩
    · simp [capacity_record, hb, hfl]
    · simp only [capacity_record, hb, Bool.false_eq_true, if_false, hfl]
      rw [hmin]
    · simp only [capacity_record, hb, Bool.false_eq_true, if_false, hfl]
      rw [hmin]
      exact pyint_cast_le (min_le_right _ f) hf
    · simp [capacity_record, hb]
    · simp [capacity_record, hb]

/-- Witness for C1 at the spec §8 end-to-end scenario: totalCapacity 100,
freeCapacity 40, provisioned 50, thin supported and allowed, ratio 2,
reserved 10% gives available 180 and virtual free 130. -/
theorem C1_capacity_factors_spec_witness :
    ∃ r, calculate_capacity_factors 100 40 50 true 2 10 true = some r ∧
      CapacityFactors.total_available_capacity r = 180 ∧
      CapacityFactors.virtual_free_capacity r = 130 ∧
      CapacityFactors.provisioned_type r = "thin" := by
  obtain ⟨r, hr, hres, hthin, hthick⟩ :=
    C1_capacity_factors_spec 100 40 50 true 2 10 true (by norm_num) (by norm_num)
      (by norm_num) (by norm_num) (by norm_num) (by norm_num)
  obtain ⟨htac, hvf, hty, hmo⟩ := hthin ⟨rfl, rfl⟩
  refine ⟨r, hr, ?_, ?_, hty⟩
  · rw [htac]
    norm_num [pyint]
  · rw [hvf]
    norm_num [pyint]

/-- C5 counterexample: the claim says every capacity-typed output field,
including `total_capacity`, is truncated to an integer; but at
totalCapacity = 21/2 the returned `total_capacity` is the unrounded 21/2,
whose denominator is 2, so it is not an integer. -/
theorem C5_truncation_cex :
    Option.map CapacityFactors.total_capacity
        (calculate_capacity_factors (21 / 2) 0 0 false 1 0 false) = some (21 / 2) ∧
    Rat.den (21 / 2) = 2 := by
  constructor
  · rw [calc_factors_eq_record]
    simp [capacity_record]
  · norm_num

/-- C5 amended: only the derived capacity fields (`reserved_capacity`,
`total_reserved_available_capacity`, `total_available_capacity`,
`calculated_free_capacity`, `virtual_free_capacity`) are truncated to
integers; `total_capacity`, `free_capacity` and `provisioned_capacity` are
passed through unrounded, and ratio/percentage fields keep full precision. -/
theorem C5_truncation_amended (t f p : ℚ) (tps : Bool) (mosr rp : ℚ) (thin : Bool) :
    ∃ r, calculate_capacity_factors t f p tps mosr rp thin = some r ∧
      Rat.den (CapacityFactors.reserved_capacity r) = 1 ∧
      Rat.den (CapacityFactors.total_reserved_available_capacity r) = 1 ∧
      Rat.den (CapacityFactors.total_available_capacity r) = 1 ∧
      Rat.den (CapacityFactors.calculated_free_capacity r) = 1 ∧
      Rat.den (CapacityFactors.virtual_free_capacity r) = 1 ∧
      CapacityFactors.total_capacity r = t ∧
      CapacityFactors.free_capacity r = f ∧
      CapacityFactors.provisioned_capacity r = p := by
  refine ⟨capacity_record t f p tps mosr rp thin,
    calc_factors_eq_record t f p tps mosr rp thin, ?_⟩
  simp [capacity_record, Rat.den_intCast]

/-- C9: `calculate_capacity_factors` never hits a division by zero (its result
is always `some`), and whenever the computed raw `total_available_capacity`
is zero both `provisioned_ratio` and `free_percent` are exactly 0. -/
theorem C9_division_guard (t f p : ℚ) (tps : Bool) (mosr rp : ℚ) (thin : Bool) :
    Option.isSome (calculate_capacity_factors t f p tps mosr rp thin) = true ∧
    (total_available_raw t tps mosr rp thin = 0 →
      ∃ r, calculate_capacity_factors t f p tps mosr rp thin = some r ∧
        CapacityFactors.provisioned_ratio r = 0 ∧
        CapacityFactors.free_percent r = 0) := by
  constructor
  · rw [calc_factors_eq_record]
    rfl
  · intro h0
    simp only [total_available_raw, Bool.and_eq_true] at h0
    refine ⟨capacity_record t f p tps mosr rp thin,
      calc_factors_eq_record t f p tps mosr rp thin, ?_, ?_⟩ <;>
      simp [capacity_record, h0]

/-- Witness for C9 at totalCapacity 0 (a fully drained backend): the raw
available capacity is 0 and both ratios are reported as 0. -/
theorem C9_division_guard_witness :
    ∃ r, calculate_capacity_factors 0 0 5 true 2 0 true = some r ∧
      CapacityFactors.provisioned_ratio r = 0 ∧
      CapacityFactors.free_percent r = 0 :=
  (C9_division_guard 0 0 5 true 2 0 true).2 (by norm_num [total_available_raw])

/-- C3 counterexample: a pool whose matched volume type has
`provisioning:type = 'thick'` but whose capabilities report
`thin_provisioning_support = True` gets `can_overcommit = True` — the `elif`
fallback also runs when a volume type matched, so the claimed
"true iff the matched type's provisioning:type is absent or not 'thick'"
is false. -/
theorem C3_overcommit_cex :
    alookup [("provisioning:type", "thick")] "provisioning:type" = some "thick" ∧
    pool_can_overcommit
        (some { name := "vmware", extra_specs := [("provisioning:type", "thick")] })
        [("thin_provisioning_support", Val.bool true)] = true := by
  constructor
  · rfl
  · rfl

/-- C3 amended: the overcommit decision is true iff either a volume type
matched and its `provisioning:type` extra-spec is absent or not `'thick'`, or
— otherwise (no match, or a matched type that is `'thick'`) — the pool's
`thin_provisioning_support` capability is present and truthy. -/
theorem C3_overcommit_amended (vt? : Option VolumeType) (caps : List (String × Val)) :
    pool_can_overcommit vt? caps = true ↔
      ((∃ vt, vt? = some vt ∧ alookup vt.extra_specs "provisioning:type" ≠ some "thick") ∨
        (∃ v, alookup caps "thin_provisioning_support" = some v ∧ pyTruthy v = true)) := by
  cases vt? with
  | none =>
    simp only [pool_can_overcommit]
    cases hv : alookup caps "thin_provisioning_support" with
    | none => simp [hv]
    | some v => simp [hv]
  | some vt =>
    by_cases hspec : alookup vt.extra_specs "provisioning:type" = some "thick"
    · simp only [pool_can_overcommit, hspec]
      cases hv : alookup caps "thin_provisioning_support" with
      | none => simp [hv, hspec]
      | some v => simp [hv, hspec]
    · simp [pool_can_overcommit, hspec]

/-- C6 counterexample: with a malformed pool (no `volume_backend_name`)
followed by a well-formed one, the poll cycle raises `KeyError` and aborts —
the well-formed pool, which parses fine on its own, is never processed.  The
claimed skip-and-warn behaviour does not exist in the code. -/
theorem C6_skip_and_warn_cex :
    parse_all [bad_pool, good_pool] none
        = Except.error (PyErr.keyError "volume_backend_name") ∧
    Except.isOk (parse_pool_data good_pool none) = true := by
  constructor
  · rfl
  · have hvb : alookup good_pool.capabilities "volume_backend_name"
        = some (Val.str "backendB") := by decide
    have hsp : (pysplit good_pool.name '#')[1]? = some "poolB" := by decide
    have hdrv : alookup good_pool.capabilities "driver_version"
        = some (Val.str "1.0") := by decide
    simp only [parse_pool_data]
    rw [hvb, hsp, hdrv, calc_factors_eq_record]
    rfl

/-- C6 amended: a pool record lacking `volume_backend_name`, or whose name
contains no `'#'`, makes `parse_pool_data` raise (`KeyError`/`IndexError`),
and the raise aborts the whole poll cycle: the cycle result is that error and
no later pool is processed. -/
theorem C6_malformed_pool_aborts (pool : PoolRecord) (vt? : Option VolumeType)
    (rest : List PoolRecord)
    (h : alookup pool.capabilities "volume_backend_name" = none ∨
      pool.name.toList.count '#' = 0) :
    ∃ e, parse_pool_data pool vt? = Except.error e ∧
      parse_all (pool :: rest) vt? = Except.error e := by
  cases hvbn : alookup pool.capabilities "volume_backend_name" with
  | none =>
    refine ⟨PyErr.keyError "volume_backend_name", ?_, ?_⟩
    · simp [parse_pool_data, hvbn]
    · simp only [parse_all]
      simp [parse_pool_data, hvbn, Bind.bind, Except.bind]
  | some backend_name =>
    rcases h with h | h
    · rw [hvbn] at h
      exact absurd h (by simp)
    · have hsplit : (pysplit pool.name '#')[1]? = none := by
        apply List.getElem?_eq_none
        have hcnt : List.count '#' pool.name.data = 0 := h
        simp [pysplit, splitOnChar_length, hcnt]
      refine ⟨PyErr.indexError, ?_, ?_⟩
      · simp [parse_pool_data, hvbn, hsplit]
      · simp only [parse_all]
        simp [parse_pool_data, hvbn, hsplit, Bind.bind, Except.bind]

/-- Witness for C6: the concrete malformed pool aborts a one-pool cycle. -/
theorem C6_malformed_pool_aborts_witness :
    ∃ e, parse_pool_data bad_pool none = Except.error e ∧
      parse_all [bad_pool] none = Except.error e :=
  C6_malformed_pool_aborts bad_pool none [] (Or.inl (by rfl))

/-- C10: `extract_host(h, 'pool')` returns the segment after the `'#'` iff
`h` contains exactly one `'#'`; with zero or several `'#'` characters it
returns `None` (`'_pool0'` when `default_pool_name` is set).  Consequently an
aggregate-flagged pool whose name does not contain exactly one `'#'` gets the
group key `None` in `aggregate_pools`, whose `agg_step` keys groups by
`extract_host(name, 'pool')`. -/
theorem C10_extract_host_pool (host : String) (p : PoolRecord) :
    (host.toList.count '#' = 1 →
      ∃ pre post, host.toList = pre ++ '#' :: post ∧ '#' ∉ pre ∧ '#' ∉ post ∧
        extract_host host "pool" false = some (String.mk post)) ∧
    (host.toList.count '#' ≠ 1 →
      extract_host host "pool" false = none ∧
      extract_host host "pool" true = some "_pool0") ∧
    (p.name.toList.count '#' ≠ 1 →
      extract_host p.name "pool" false = none) ∧
    ((alookup p.capabilities "aggregate_id").isSome = true →
      p.name.toList.count '#' ≠ 1 →
      (agg_step ([], none) p).1.map Prod.fst = [none]) := by
  have hmain : ∀ s : String,
      (s.toList.count '#' = 1 →
        ∃ pre post, s.toList = pre ++ '#' :: post ∧ '#' ∉ pre ∧ '#' ∉ post ∧
          extract_host s "pool" false = some (String.mk post)) ∧
      (s.toList.count '#' ≠ 1 →
        extract_host s "pool" false = none ∧
        extract_host s "pool" true = some "_pool0") := by
    intro s
    have hlen : (splitOnChar '#' s.toList).length = s.toList.count '#' + 1 :=
      splitOnChar_length '#' s.toList
    constructor
    · intro h1
      rw [h1] at hlen
      obtain ⟨a, b, hab⟩ : ∃ a b, splitOnChar '#' s.toList = [a, b] := by
        rcases hsp : splitOnChar '#' s.toList with _ | ⟨x, _ | ⟨y, _ | _⟩⟩ <;>
          rw [hsp] at hlen <;> simp at hlen
        · exact ⟨x, y, rfl⟩
      obtain ⟨hjoin, hpre, hpost⟩ := splitOnChar_pair '#' s.toList a b hab
      refine ⟨a, b, hjoin, hpre, hpost, ?_⟩
      simp only [extract_host, pysplit, hab]
      norm_num
      rw [if_neg (show ¬("pool" = "host") by decide),
        if_neg (show ¬("pool" = "backend") by decide)]
    · intro h1
      have hne : (pysplit s '#').length ≠ 2 := by
        simp only [pysplit, List.length_map, hlen]
        omega
      constructor <;> simp [extract_host, hne]
  refine ⟨(hmain host).1, (hmain host).2, fun hp => ((hmain p.name).2 hp).1, ?_⟩
  intro hagg hcnt
  have hkey : extract_host p.name "pool" false = none := ((hmain p.name).2 hcnt).1
  simp [agg_step, hagg, hkey, alookup]

/-- Witness for C10 at a pool name with two `'#'` separators: level `'pool'`
yields `None` (or the default `'_pool0'`), and an aggregate-flagged pool with
that name is grouped under the key `None`. -/
theorem C10_extract_host_pool_witness :
    (extract_host "a#b#c" "pool" false = none ∧
      extract_host "a#b#c" "pool" true = some "_pool0") ∧
    (agg_step ([], none)
        { name := "a#b#c", capabilities := [("aggregate_id", Val.str "x")] }).1.map
      Prod.fst = [none] :=
  ⟨(C10_extract_host_pool "a#b#c"
      { name := "a#b#c", capabilities := [("aggregate_id", Val.str "x")] }).2.1
      (by decide),
    (C10_extract_host_pool "a#b#c"
      { name := "a#b#c", capabilities := [("aggregate_id", Val.str "x")] }).2.2.2
      (by decide) (by decide)⟩

theorem run_filters_loop_iff (pool : PoolRecord) (props : FilterProperties)
    (fs : List CinderFilter) :
    run_filters_loop pool props fs = true ↔ ∀ f ∈ fs, f pool props = true := by
  induction fs with
  | nil => simp [run_filters_loop]
  | cons f rest ih =>
    by_cases hf : f pool props = false
    · simp [run_filters_loop, hf]
    · have hft : f pool props = true := by
        cases hcase : f pool props
        · exact absurd hcase hf
        · rfl
      simp [run_filters_loop, hf, ih, hft]

/-- C8: a pool passes the filter chain iff every filter passes; the loop
short-circuits, returning `False` from the first failing filter without
consulting the rest; and since filters are pure functions, the pass/fail
outcome is invariant under any permutation of the chain. -/
theorem C8_filter_chain_semantics (fs fs' : List CinderFilter) (pool : PoolRecord)
    (vt : VolumeType) (hperm : fs.Perm fs') :
    (run_filters fs pool vt = true ↔
      ∀ f ∈ fs, f pool { resource_type := vt } = true) ∧
    (∀ (f : CinderFilter) (rest : List CinderFilter),
      f pool { resource_type := vt } = false →
        run_filters (f :: rest) pool vt = false) ∧
    run_filters fs pool vt = run_filters fs' pool vt := by
  refine ⟨run_filters_loop_iff pool _ fs, ?_, ?_⟩
  · intro f rest hf
    simp [run_filters, run_filters_loop, hf]
  · have h1 := run_filters_loop_iff pool { resource_type := vt } fs
    have h2 := run_filters_loop_iff pool { resource_type := vt } fs'
    have hiff : run_filters fs pool vt = true ↔ run_filters fs' pool vt = true := by
      rw [run_filters, run_filters, h1, h2]
      constructor
      · intro h f hf
        exact h f (hperm.mem_iff.mpr hf)
      · intro h f hf
        exact h f (hperm.mem_iff.mp hf)
    cases hx : run_filters fs pool vt <;> cases hy : run_filters fs' pool vt <;>
      simp_all

/-- Witness for C8 at a concrete two-filter chain and its transposition. -/
theorem C8_filter_chain_semantics_witness :
    run_filters [filter_backend_name, filter_nonempty_name]
        { name := "h@b#p", capabilities := [("volume_backend_name", Val.str "vmware")] }
        { name := "vmware", extra_specs := [] }
      = run_filters [filter_nonempty_name, filter_backend_name]
        { name := "h@b#p", capabilities := [("volume_backend_name", Val.str "vmware")] }
        { name := "vmware", extra_specs := [] } ∧
    run_filters [filter_backend_name, filter_nonempty_name]
        { name := "h@b#p", capabilities := [("volume_backend_name", Val.str "vmware")] }
        { name := "vmware", extra_specs := [] } = true := by
  obtain ⟨hiff, hshort, hpermeq⟩ :=
    C8_filter_chain_semantics [filter_backend_name, filter_nonempty_name]
      [filter_nonempty_name, filter_backend_name]
      { name := "h@b#p", capabilities := [("volume_backend_name", Val.str "vmware")] }
      { name := "vmware", extra_specs := [] }
      (List.Perm.swap filter_nonempty_name filter_backend_name [])
  refine ⟨hpermeq, hiff.mpr ?_⟩
  intro f hf
  rcases List.mem_cons.mp hf with h | h
  · subst h
    decide
  · rcases List.mem_cons.mp h with h' | h'
    · subst h'
      decide
    · exact absurd h' (List.not_mem_nil f)

theorem alookup_addToBucket (buckets : List (String × List PoolRecord))
    (name : String) (pool : PoolRecord) (k : String) :
    alookup (addToBucket buckets name pool) k
      = if k = name then some ((alookup buckets k).getD [] ++ [pool])
        else alookup buckets k := by
  induction buckets with
  | nil =>
    by_cases hk : k = name
    · subst hk
      simp [addToBucket, alookup]
    · have hk' : ¬(name = k) := fun h => hk h.symm
      simp [addToBucket, alookup, hk, hk']
  | cons kv rest ih =>
    obtain ⟨k0, ps⟩ := kv
    by_cases h0 : k0 = name
    · subst h0
      by_cases hk : k0 = k
      · subst hk
        simp [addToBucket, alookup]
      · have hk' : ¬(k = k0) := fun h => hk h.symm
        simp [addToBucket, alookup, hk, hk']
    · by_cases hk : k0 = k
      · subst hk
        simp [addToBucket, alookup, h0]
      · simp only [addToBucket, if_neg h0, alookup, if_neg hk]
        exact ih

theorem mem_bucketOf_addToBucket (buckets : List (String × List PoolRecord))
    (name : String) (p q : PoolRecord) (k : String) :
    q ∈ bucketOf (addToBucket buckets name p) k ↔
      q ∈ bucketOf buckets k ∨ (q = p ∧ k = name) := by
  simp only [bucketOf, alookup_addToBucket]
  by_cases hk : k = name
  · simp [hk]
  · simp [hk]

theorem classify_types_found (fs : List CinderFilter) (pool : PoolRecord)
    (vts : List VolumeType) (buckets : List (String × List PoolRecord))
    (found : Bool) :
    (classify_types fs pool vts buckets found).2
      = (found || vts.any (fun vt => run_filters fs pool vt)) := by
  induction vts generalizing buckets found with
  | nil => simp [classify_types]
  | cons vt rest ih =>
    by_cases hrun : run_filters fs pool vt = true
    · simp [classify_types, hrun, ih]
    · simp [classify_types, hrun, ih,
        Bool.eq_false_iff.mpr (fun h => hrun h)]

theorem mem_bucketOf_classify_types (fs : List CinderFilter) (pool : PoolRecord)
    (vts : List VolumeType) (buckets : List (String × List PoolRecord))
    (found : Bool) (q : PoolRecord) (k : String) :
    q ∈ bucketOf (classify_types fs pool vts buckets found).1 k ↔
      q ∈ bucketOf buckets k ∨
        (q = pool ∧ ∃ vt ∈ vts, vt.name = k ∧ run_filters fs pool vt = true) := by
  induction vts generalizing buckets found with
  | nil => simp [classify_types]
  | cons vt rest ih =>
    by_cases hrun : run_filters fs pool vt = true
    · simp only [classify_types, hrun, if_true]
      rw [ih]
      rw [mem_bucketOf_addToBucket]
      simp only [List.mem_cons, exists_eq_or_imp]
      constructor
      · rintro ((h | ⟨hq, hk⟩) | ⟨hq, hrest⟩)
        · exact Or.inl h
        · exact Or.inr ⟨hq, Or.inl ⟨hk.symm, hrun⟩⟩
        · exact Or.inr ⟨hq, Or.inr hrest⟩
      · rintro (h | ⟨hq, (⟨hk, _⟩ | hrest)⟩)
        · exact Or.inl (Or.inl h)
        · exact Or.inl (Or.inr ⟨hq, hk.symm⟩)
        · exact Or.inr ⟨hq, hrest⟩
    · have hrunf : run_filters fs pool vt = false := by
        cases hcase : run_filters fs pool vt
        · rfl
        · exact absurd hcase hrun
      simp only [classify_types, hrunf, if_false, Bool.false_eq_true]
      rw [ih]
      simp only [List.mem_cons, exists_eq_or_imp]
      constructor
      · rintro (h | ⟨hq, hrest⟩)
        · exact Or.inl h
        · exact Or.inr ⟨hq, Or.inr hrest⟩
      · rintro (h | ⟨hq, (⟨_, hfalse⟩ | hrest)⟩)
        · exact Or.inl h
        · exact absurd hfalse hrun
        · exact Or.inr ⟨hq, hrest⟩

theorem mem_bucketOf_classify_pool (fs : List CinderFilter) (vts : List VolumeType)
    (buckets : List (String × List PoolRecord)) (pool q : PoolRecord) (k : String) :
    q ∈ bucketOf (classify_pool fs vts buckets pool) k ↔
      q ∈ bucketOf buckets k ∨
        (q = pool ∧
          ((∃ vt ∈ vts, vt.name = k ∧ run_filters fs pool vt = true) ∨
            (k = "Unknown" ∧ ∀ vt ∈ vts, run_filters fs pool vt = false))) := by
  simp only [classify_pool]
  by_cases hfound : (classify_types fs pool vts buckets false).2 = true
  · have hany : vts.any (fun vt => run_filters fs pool vt) = true := by
      rw [classify_types_found] at hfound
      simpa using hfound
    obtain ⟨vt0, hvt0, hrun0⟩ := List.any_eq_true.mp hany
    have hnall : ¬(∀ vt ∈ vts, run_filters fs pool vt = false) := by
      intro hall
      rw [hall vt0 hvt0] at hrun0
      exact Bool.false_ne_true hrun0
    rw [show (classify_types fs pool vts buckets false)
        = ((classify_types fs pool vts buckets false).1, true) from
        Prod.ext rfl hfound]
    simp only [if_true]
    rw [mem_bucketOf_classify_types]
    constructor
    · rintro (h | h)
      · exact Or.inl h
      · exact Or.inr ⟨h.1, Or.inl h.2⟩
    · rintro (h | ⟨hq, h | ⟨_, hall⟩⟩)
      · exact Or.inl h
      · exact Or.inr ⟨hq, h⟩
      · exact absurd hall hnall
  · have hfound' : (classify_types fs pool vts buckets false).2 = false := by
      cases hcase : (classify_types fs pool vts buckets false).2
      · rfl
      · exact absurd hcase hfound
    have hall : ∀ vt ∈ vts, run_filters fs pool vt = false := by
      rw [classify_types_found] at hfound'
      simp only [Bool.false_or, List.any_eq_false] at hfound'
      intro vt hvt
      cases hcase : run_filters fs pool vt
      · rfl
      · exact absurd hcase (hfound' vt hvt)
    rw [show (classify_types fs pool vts buckets false)
        = ((classify_types fs pool vts buckets false).1, false) from
        Prod.ext rfl hfound']
    simp only [Bool.false_eq_true, if_false]
    rw [mem_bucketOf_addToBucket, mem_bucketOf_classify_types]
    have hnoex : ¬(∃ vt ∈ vts, vt.name = k ∧ run_filters fs pool vt = true) := by
      rintro ⟨vt, hvt, _, hrun⟩
      rw [hall vt hvt] at hrun
      exact Bool.false_ne_true hrun
    constructor
    · rintro ((h | ⟨_, hex⟩) | ⟨hq, hk⟩)
      · exact Or.inl h
      · exact absurd hex hnoex
      · exact Or.inr ⟨hq, Or.inr ⟨hk, hall⟩⟩
    · rintro (h | ⟨hq, hex | ⟨hk, _⟩⟩)
      · exact Or.inl (Or.inl h)
      · exact absurd hex hnoex
      · exact Or.inr ⟨hq, hk⟩

theorem mem_bucketOf_filter_pools_fold (fs : List CinderFilter)
    (vts : List VolumeType) (pools : List PoolRecord)
    (buckets : List (String × List PoolRecord)) (q : PoolRecord) (k : String) :
    q ∈ bucketOf (pools.foldl (classify_pool fs vts) buckets) k ↔
      q ∈ bucketOf buckets k ∨
        (∃ p ∈ pools, q = p ∧
          ((∃ vt ∈ vts, vt.name = k ∧ run_filters fs p vt = true) ∨
            (k = "Unknown" ∧ ∀ vt ∈ vts, run_filters fs p vt = false))) := by
  induction pools generalizing buckets with
  | nil => simp
  | cons p rest ih =>
    simp only [List.foldl_cons]
    rw [ih, mem_bucketOf_classify_pool]
    simp only [List.mem_cons, exists_eq_or_imp]
    exact or_assoc

/-- C7: `filter_pools` buckets the pools by volume-type name, with an
`'Unknown'` bucket: given pairwise-distinct type names none of which is the
literal `'Unknown'`, a pool is in a type's bucket iff the filter chain passes
it for that type (so one pool may land in several buckets), and it is in
`'Unknown'` iff it passes the chain for no volume type. -/
theorem C7_filter_pools_classify (fs : List CinderFilter) (vts : List VolumeType)
    (pools : List PoolRecord) (pool : PoolRecord)
    (hnd : (vts.map VolumeType.name).Nodup)
    (hu : "Unknown" ∉ vts.map VolumeType.name) :
    (∀ vt ∈ vts,
      (pool ∈ bucketOf (filter_pools fs vts pools) vt.name ↔
        pool ∈ pools ∧ run_filters fs pool vt = true)) ∧
    (pool ∈ bucketOf (filter_pools fs vts pools) "Unknown" ↔
      pool ∈ pools ∧ ∀ vt ∈ vts, run_filters fs pool vt = false) := by
  have hinit : ∀ k, bucketOf [("Unknown", [])] k = [] := by
    intro k
    simp only [bucketOf, alookup]
    split <;> rfl
  constructor
  · intro vt hvt
    rw [filter_pools, mem_bucketOf_filter_pools_fold, hinit]
    simp only [List.not_mem_nil, false_or]
    constructor
    · rintro ⟨p, hp, rfl, ⟨vt', hvt', hname, hrun⟩ | ⟨hk, _⟩⟩
      · have : vt' = vt :=
          List.inj_on_of_nodup_map hnd hvt' hvt hname
        rw [← this]
        exact ⟨hp, hrun⟩
      · exact absurd (hk ▸ List.mem_map_of_mem VolumeType.name hvt) hu
    · rintro ⟨hp, hrun⟩
      exact ⟨pool, hp, rfl, Or.inl ⟨vt, hvt, rfl, hrun⟩⟩
  · rw [filter_pools, mem_bucketOf_filter_pools_fold, hinit]
    simp only [List.not_mem_nil, false_or]
    constructor
    · rintro ⟨p, hp, rfl, ⟨vt', hvt', hname, _⟩ | ⟨_, hall⟩⟩
      · exact absurd (hname ▸ List.mem_map_of_mem VolumeType.name hvt') hu
      · exact ⟨hp, hall⟩
    · rintro ⟨hp, hall⟩
      exact ⟨pool, hp, rfl, Or.inr ⟨by trivial, hall⟩⟩

/-- Witness for C7 at one volume type and one pool: the matching pool lands
in the type's bucket and not in `'Unknown'`. -/
theorem C7_filter_pools_classify_witness :
    ({ name := "h@b#p", capabilities := [("volume_backend_name", Val.str "vmware")] }
        : PoolRecord)
      ∈ bucketOf
        (filter_pools [filter_backend_name] [{ name := "vmware", extra_specs := [] }]
          [{ name := "h@b#p", capabilities := [("volume_backend_name", Val.str "vmware")] }])
        "vmware" :=
  ((C7_filter_pools_classify [filter_backend_name]
      [{ name := "vmware", extra_specs := [] }]
      [{ name := "h@b#p", capabilities := [("volume_backend_name", Val.str "vmware")] }]
      { name := "h@b#p", capabilities := [("volume_backend_name", Val.str "vmware")] }
      (by decide) (by decide)).1
    { name := "vmware", extra_specs := [] } (by decide)).mpr
    ⟨by decide, by decide⟩

theorem alookup_cons {α β : Type} [DecidableEq α] (kv : α × β)
    (rest : List (α × β)) (k : α) :
    alookup (kv :: rest) k = if kv.1 = k then some kv.2 else alookup rest k := rfl

theorem alookup_eq_none_iff {α β : Type} [DecidableEq α] (l : List (α × β)) (k : α) :
    alookup l k = none ↔ k ∉ l.map Prod.fst := by
  induction l with
  | nil => simp [alookup]
  | cons kv rest ih =>
    rw [alookup_cons]
    by_cases hk : kv.1 = k
    · rw [if_pos hk]
      simp only [List.map_cons, List.mem_cons]
      constructor
      · intro h
        exact absurd h (by simp)
      · intro h
        exact absurd (Or.inl hk.symm) h
    · rw [if_neg hk, ih]
      simp only [List.map_cons, List.mem_cons]
      constructor
      · intro h hc
        rcases hc with hc | hc
        · exact hk hc.symm
        · exact h hc
      · intro h hc
        exact h (Or.inr hc)

theorem alookup_append {α β : Type} [DecidableEq α] (l l' : List (α × β)) (k : α) :
    alookup (l ++ l') k
      = match alookup l k with
        | some v => some v
        | none => alookup l' k := by
  induction l with
  | nil => simp [alookup]
  | cons kv rest ih =>
    rw [List.cons_append, alookup_cons, alookup_cons]
    by_cases hk : kv.1 = k
    · rw [if_pos hk, if_pos hk]
    · rw [if_neg hk, if_neg hk, ih]

theorem alookup_of_mem {α β : Type} [DecidableEq α] (l : List (α × β))
    (hnd : NodupKeys l) (k : α) (v : β) (hmem : (k, v) ∈ l) :
    alookup l k = some v := by
  induction l with
  | nil => exact absurd hmem (List.not_mem_nil _)
  | cons kv rest ih =>
    rw [alookup_cons]
    rcases List.mem_cons.mp hmem with h | h
    · rw [← h]
      simp
    · have hhead : kv.1 ∉ rest.map Prod.fst := by
        have hnd' := hnd
        simp only [NodupKeys, List.map_cons, List.nodup_cons] at hnd'
        exact hnd'.1
      have hk : ¬(kv.1 = k) := by
        intro hk
        have hmemk : k ∈ rest.map Prod.fst := by
          have : (k, v).1 ∈ rest.map Prod.fst :=
            List.mem_map_of_mem Prod.fst h
          exact this
        rw [hk] at hhead
        exact hhead hmemk
      have hnd2 : NodupKeys rest := by
        have hnd' := hnd
        simp only [NodupKeys, List.map_cons, List.nodup_cons] at hnd'
        exact hnd'.2
      rw [if_neg hk]
      exact ih hnd2 h

theorem alookup_update_shard (seen : SeenMap) (s : String)
    (f : List (String × ℕ) → List (String × ℕ)) (k : String) :
    alookup (update_shard seen s f) k
      = if k = s then Option.map f (alookup seen k) else alookup seen k := by
  induction seen with
  | nil => simp [update_shard, alookup]
  | cons sc rest ih =>
    have hfold : update_shard (sc :: rest) s f
        = (if sc.1 = s then (sc.1, f sc.2) else sc) :: update_shard rest s f := by
      simp [update_shard]
    have hkey : (if sc.1 = s then (sc.1, f sc.2) else sc).1 = sc.1 := by
      split <;> rfl
    have hval : (if sc.1 = s then (sc.1, f sc.2) else sc).2
        = if sc.1 = s then f sc.2 else sc.2 := by
      split <;> rfl
    rw [hfold, alookup_cons, alookup_cons, hkey, hval]
    by_cases hk : sc.1 = k <;> by_cases hs : k = s
    · have hss : sc.1 = s := by rw [hk, hs]
      simp [hk, hs, hss]
    · have hss : ¬(sc.1 = s) := by
        rw [hk]
        exact hs
      simp [hk, hs, hss]
    · subst hs
      simp [hk, ih]
    · simp [hk, hs, ih]

theorem alookup_bump_backend (counts : List (String × ℕ)) (b k : String) :
    alookup (bump_backend counts b) k
      = if k = b then Option.map (fun n => n + 1) (alookup counts k)
        else alookup counts k := by
  induction counts with
  | nil => simp [bump_backend, alookup]
  | cons bc rest ih =>
    have hfold : bump_backend (bc :: rest) b
        = (if bc.1 = b then (bc.1, bc.2 + 1) else bc) :: bump_backend rest b := by
      simp [bump_backend]
    have hkey : (if bc.1 = b then (bc.1, bc.2 + 1) else bc).1 = bc.1 := by
      split <;> rfl
    have hval : (if bc.1 = b then (bc.1, bc.2 + 1) else bc).2
        = if bc.1 = b then bc.2 + 1 else bc.2 := by
      split <;> rfl
    rw [hfold, alookup_cons, alookup_cons, hkey, hval]
    by_cases hk : bc.1 = k <;> by_cases hs : k = b
    · have hss : bc.1 = b := by rw [hk, hs]
      simp [hk, hs, hss]
    · have hss : ¬(bc.1 = b) := by
        rw [hk]
        exact hs
      simp [hk, hs, hss]
    · subst hs
      simp [hk, ih]
    · simp [hk, hs, ih]

theorem keys_update_shard (seen : SeenMap) (s : String)
    (f : List (String × ℕ) → List (String × ℕ)) :
    (update_shard seen s f).map Prod.fst = seen.map Prod.fst := by
  unfold update_shard
  rw [List.map_map]
  apply List.map_congr_left
  intro sc _
  show (if sc.1 = s then (sc.1, f sc.2) else sc).1 = sc.1
  split <;> rfl

theorem keys_bump_backend (counts : List (String × ℕ)) (b : String) :
    (bump_backend counts b).map Prod.fst = counts.map Prod.fst := by
  unfold bump_backend
  rw [List.map_map]
  apply List.map_congr_left
  intro bc _
  show (if bc.1 = b then (bc.1, bc.2 + 1) else bc).1 = bc.1
  split <;> rfl

theorem nodupKeys_default_counts (bs : List String) (h : bs.Nodup) :
    NodupKeys (default_counts bs) := by
  unfold NodupKeys default_counts
  rw [List.map_map]
  have hcomp : (Prod.fst ∘ fun b => ((b, 0) : String × ℕ)) = id := rfl
  rw [hcomp, List.map_id]
  exact h

theorem nodupKeys_append_single {α β : Type} [DecidableEq α] (l : List (α × β))
    (k : α) (v : β) (hnd : NodupKeys l) (hk : alookup l k = none) :
    NodupKeys (l ++ [(k, v)]) := by
  rw [alookup_eq_none_iff] at hk
  unfold NodupKeys at *
  rw [List.map_append, List.nodup_append]
  refine ⟨hnd, by simp, ?_⟩
  intro a ha hc
  simp only [List.map_cons, List.map_nil, List.mem_singleton] at hc
  subst hc
  exact hk ha

theorem seenWF_update_shard (seen : SeenMap) (s : String)
    (f : List (String × ℕ) → List (String × ℕ)) (hwf : SeenWF seen)
    (hf : ∀ sc ∈ seen, sc.1 = s → NodupKeys (f sc.2)) :
    SeenWF (update_shard seen s f) := by
  constructor
  · unfold NodupKeys
    rw [keys_update_shard]
    exact hwf.1
  · intro sc' hsc'
    obtain ⟨sc, hsc, hg⟩ := List.mem_map.mp hsc'
    by_cases h : sc.1 = s
    · rw [← hg, if_pos h]
      exact hf sc hsc h
    · rw [← hg, if_neg h]
      exact hwf.2 sc hsc

theorem ensure_shard_WF (cfg : CollectorConfig) (seen : SeenMap) (s : String)
    (hexp : cfg.expected_sharding_backends.Nodup) (hwf : SeenWF seen) :
    SeenWF (ensure_shard cfg seen s) := by
  unfold ensure_shard
  by_cases hin : (alookup seen s).isSome
  · rw [if_pos hin]
    exact hwf
  · rw [if_neg hin]
    have hnone : alookup seen s = none := by
      cases hcase : alookup seen s
      · rfl
      · rw [hcase] at hin
        exact absurd rfl hin
    constructor
    · exact nodupKeys_append_single seen s _ hwf.1 hnone
    · intro sc hsc
      rcases List.mem_append.mp hsc with h | h
      · exact hwf.2 sc h
      · simp only [List.mem_singleton] at h
        subst h
        exact nodupKeys_default_counts _ hexp

theorem seen_step_WF (cfg : CollectorConfig) (seen : SeenMap) (p : PoolRecord)
    (hexp : cfg.expected_sharding_backends.Nodup) (hwf : SeenWF seen) :
    SeenWF (seen_step cfg seen p) := by
  have hwf1 : SeenWF (ensure_shard cfg seen (pool_shard p)) :=
    ensure_shard_WF cfg seen (pool_shard p) hexp hwf
  simp only [seen_step]
  cases hres : alookup (ensure_shard cfg seen (pool_shard p)) (pool_shard p) with
  | none => exact hwf1
  | some counts =>
    simp only []
    by_cases hexist : (alookup counts (pool_backend p)).isSome
    · rw [if_pos hexist]
      apply seenWF_update_shard _ _ _ hwf1
      intro sc hsc _
      unfold NodupKeys
      rw [keys_bump_backend]
      exact hwf1.2 sc hsc
    · rw [if_neg hexist]
      by_cases hallow : cfg.allow_unexpected_backends
      · rw [if_pos hallow]
        apply seenWF_update_shard _ _ _ hwf1
        intro sc hsc hscs
        have hsc2 : sc.2 = counts := by
          have hpair : (sc.1, sc.2) ∈ ensure_shard cfg seen (pool_shard p) := by
            simpa using hsc
          have := alookup_of_mem _ hwf1.1 sc.1 sc.2 hpair
          rw [hscs, hres] at this
          exact (Option.some.injEq _ _).mp this.symm
        have hnone : alookup sc.2 (pool_backend p) = none := by
          rw [hsc2]
          cases hcase : alookup counts (pool_backend p)
          · rfl
          · rw [hcase] at hexist
            exact absurd rfl hexist
        exact nodupKeys_append_single sc.2 (pool_backend p) 1 (hwf1.2 sc hsc) hnone
      · rw [if_neg hallow]
        exact hwf1

theorem init_seen_WF (cfg : CollectorConfig) (h1 : cfg.shards.Nodup)
    (h2 : "None" ∉ cfg.shards) (h3 : cfg.expected_sharding_backends.Nodup)
    (h4 : cfg.expected_no_sharding_backends.Nodup) :
    SeenWF (init_seen cfg) := by
  constructor
  · unfold NodupKeys init_seen
    rw [List.map_cons, List.map_map]
    have hcomp : (Prod.fst ∘ fun s =>
        ((s, default_counts cfg.expected_sharding_backends) : String × _)) = id := rfl
    rw [hcomp, List.map_id, List.nodup_cons]
    exact ⟨h2, h1⟩
  · intro sc hsc
    rcases List.mem_cons.mp hsc with h | h
    · rw [h]
      exact nodupKeys_default_counts _ h4
    · obtain ⟨s, _, hg⟩ := List.mem_map.mp h
      rw [← hg]
      exact nodupKeys_default_counts _ h3

theorem collect_presence_WF (cfg : CollectorConfig) (pools : List PoolRecord)
    (h1 : cfg.shards.Nodup) (h2 : "None" ∉ cfg.shards)
    (h3 : cfg.expected_sharding_backends.Nodup)
    (h4 : cfg.expected_no_sharding_backends.Nodup) :
    SeenWF (collect_presence cfg pools) := by
  unfold collect_presence
  have hinit := init_seen_WF cfg h1 h2 h3 h4
  generalize init_seen cfg = seen at hinit ⊢
  induction pools generalizing seen with
  | nil => exact hinit
  | cons p rest ih =>
    rw [List.foldl_cons]
    exact ih (seen_step cfg seen p) (seen_step_WF cfg seen p h3 hinit)

theorem count_zero_chunk (counts : List (String × ℕ)) (hnd : NodupKeys counts)
    (s b : String) :
    ((counts.filter (fun bc => bc.2 == 0)).map (fun bc => (s, bc.1))).count (s, b)
      = if alookup counts b = some 0 then 1 else 0 := by
  induction counts with
  | nil => simp [alookup]
  | cons bc rest ih =>
    have hhead : bc.1 ∉ rest.map Prod.fst := by
      have hnd' := hnd
      simp only [NodupKeys, List.map_cons, List.nodup_cons] at hnd'
      exact hnd'.1
    have hnd2 : NodupKeys rest := by
      have hnd' := hnd
      simp only [NodupKeys, List.map_cons, List.nodup_cons] at hnd'
      exact hnd'.2
    rw [alookup_cons]
    by_cases hb : bc.1 = b
    · have hbrest : alookup rest b = none := by
        rw [alookup_eq_none_iff, ← hb]
        exact hhead
      have hrest0 :
          ((rest.filter (fun bc => bc.2 == 0)).map (fun bc => (s, bc.1))).count (s, b)
            = 0 := by
        rw [ih hnd2, hbrest]
        simp
      by_cases h0 : bc.2 = 0
      · simp [List.filter_cons, h0, List.count_cons, hb, hrest0, Prod.ext_iff]
      · simp [List.filter_cons, h0, List.count_cons, hb, hrest0, ih hnd2, hbrest]
    · have hb' : ¬(b = bc.1) := fun h => hb h.symm
      by_cases h0 : bc.2 = 0
      · simp [List.filter_cons, h0, List.count_cons, hb, hb', ih hnd2, Prod.ext_iff]
      · simp [List.filter_cons, h0, List.count_cons, hb, ih hnd2]

theorem mem_zero_records_fst (seen : SeenMap) (x y : String)
    (hmem : (x, y) ∈ zero_records seen) : x ∈ seen.map Prod.fst := by
  simp only [zero_records, List.mem_flatMap] at hmem
  obtain ⟨sc, hsc, hmem⟩ := hmem
  simp only [List.mem_map] at hmem
  obtain ⟨bc, _, heq⟩ := hmem
  have hx : sc.1 = x := congrArg Prod.fst heq
  rw [← hx]
  exact List.mem_map_of_mem Prod.fst hsc

theorem count_zero_records (seen : SeenMap) (hwf : SeenWF seen) (s b : String) :
    (zero_records seen).count (s, b)
      = if seen_count seen s b = some 0 then 1 else 0 := by
  induction seen with
  | nil => simp [zero_records, seen_count, alookup]
  | cons sc rest ih =>
    have hhead : sc.1 ∉ rest.map Prod.fst := by
      have hnd' := hwf.1
      simp only [NodupKeys, List.map_cons, List.nodup_cons] at hnd'
      exact hnd'.1
    have hwf2 : SeenWF rest := by
      constructor
      · have hnd' := hwf.1
        simp only [NodupKeys, List.map_cons, List.nodup_cons] at hnd'
        exact hnd'.2
      · intro x hx
        exact hwf.2 x (List.mem_cons_of_mem sc hx)
    have hchunk := count_zero_chunk sc.2 (hwf.2 sc (List.mem_cons_self sc rest)) sc.1 b
    rw [show zero_records (sc :: rest)
        = ((sc.2.filter (fun bc => bc.2 == 0)).map (fun bc => (sc.1, bc.1)))
          ++ zero_records rest from rfl]
    rw [List.count_append]
    unfold seen_count
    rw [alookup_cons]
    by_cases hs : sc.1 = s
    · subst hs
      have hrest0 : (zero_records rest).count (sc.1, b) = 0 := by
        rw [List.count_eq_zero]
        intro hmem
        exact hhead (mem_zero_records_fst rest sc.1 b hmem)
      rw [hrest0, hchunk]
      simp
    · have hchunk0 :
          ((sc.2.filter (fun bc => bc.2 == 0)).map (fun bc => (sc.1, bc.1))).count (s, b)
            = 0 := by
        rw [List.count_eq_zero]
        intro hmem
        simp only [List.mem_map] at hmem
        obtain ⟨bc, _, heq⟩ := hmem
        exact hs (congrArg Prod.fst heq)
      rw [hchunk0, if_neg hs]
      rw [ih hwf2]
      simp [seen_count]

/-- C4: in the final `seen_backends` table of a poll cycle, every tracked
`(shard, backend)` pair whose observed pool count stayed 0 produces exactly
one synthetic zero-capacity record, and a pair with at least one observed
pool — or one not tracked at all — produces none.  The expected shard and
backend name lists are assumed duplicate-free, as Python dict construction
guarantees. -/
theorem C4_presence_tracker (cfg : CollectorConfig) (pools : List PoolRecord)
    (shard backend : String)
    (h1 : cfg.shards.Nodup) (h2 : "None" ∉ cfg.shards)
    (h3 : cfg.expected_sharding_backends.Nodup)
    (h4 : cfg.expected_no_sharding_backends.Nodup) :
    (seen_count (collect_presence cfg pools) shard backend = some 0 →
      (zero_records (collect_presence cfg pools)).count (shard, backend) = 1) ∧
    (∀ n, seen_count (collect_presence cfg pools) shard backend = some (n + 1) →
      (zero_records (collect_presence cfg pools)).count (shard, backend) = 0) ∧
    (seen_count (collect_presence cfg pools) shard backend = none →
      (zero_records (collect_presence cfg pools)).count (shard, backend) = 0) := by
  have hwf := collect_presence_WF cfg pools h1 h2 h3 h4
  have hcnt := count_zero_records (collect_presence cfg pools) hwf shard backend
  refine ⟨?_, ?_, ?_⟩
  · intro h0
    rw [hcnt, if_pos h0]
  · intro n hn
    rw [hcnt, if_neg (by simp [hn])]
  · intro hnone
    rw [hcnt, if_neg (by simp [hnone])]

/-- Witness for C4: `standard_hdd` saw no pool in `vc-a` and gets exactly one
zero-capacity record; `vmware` saw one pool and gets none. -/
theorem C4_presence_tracker_witness :
    (zero_records (collect_presence presence_cfg presence_pools)).count
        ("vc-a", "standard_hdd") = 1 ∧
    (zero_records (collect_presence presence_cfg presence_pools)).count
        ("vc-a", "vmware") = 0 :=
  ⟨(C4_presence_tracker presence_cfg presence_pools "vc-a" "standard_hdd"
      (by decide) (by decide) (by decide) (by decide)).1 (by decide),
    ((C4_presence_tracker presence_cfg presence_pools "vc-a" "vmware"
      (by decide) (by decide) (by decide) (by decide)).2.1) 0 (by decide)⟩

/-- C2: evaluating `aggregate_pools` at the spec §8 example (pool `p1` with
members allocated 10 and 15, total capacity 100, reserved 0) sums
`allocated_capacity_gb` to 25 as claimed, but `virtual_free_capacity_gb`
comes out as 180 — the merge branch adds the stale `virtual_free` local
instead of recomputing `availableCapacity - summedAllocated = 75` — and the
single-member group `p2` never receives a `free_percent` key.  This is the
code bug behind the claim. -/
theorem C2_aggregate_pools_eval :
    Option.map AggPool.allocated_capacity_gb
        (alookup (aggregate_pools C2_pools) (some "p1")) = some 25 ∧
    Option.map AggPool.virtual_free_capacity_gb
        (alookup (aggregate_pools C2_pools) (some "p1")) = some 180 ∧
    (180 : ℚ) ≠ 100 - 25 ∧
    Option.map AggPool.free_percent
        (alookup (aggregate_pools C2_pools) (some "p2")) = some none := by
  have h1 : extract_host "hostA@backendA#p1" "pool" false = some "p1" := by decide
  have h2 : extract_host "hostB@backendB#p1" "pool" false = some "p1" := by decide
  have h3 : extract_host "hostC@backendC#p2" "pool" false = some "p2" := by decide
  refine ⟨?_, ?_, by norm_num, ?_⟩ <;>
    · simp only [aggregate_pools, C2_pools, List.foldl_cons, List.foldl_nil,
        agg_step, h1, h2, h3]
      norm_num [alookup, agg_caps, getNumD, updateAgg, calc_available_capacity,
        calc_virtual_free, calc_free_percent, netapp_of]
      norm_num +decide

end Cinder
